import Mathlib

/-!
Verification of the tfchain transaction core (types/transaction.go).

The development shallowly embeds the transaction data model, its binary and
JSON encodings, identifier derivation and validation dispatch.  Bytes are
modelled as natural numbers, byte strings as `List Nat`, machine integers as
`Nat` with explicit `% 2 ^ w` where overflow can occur, and fallible
operations return `Option` or `Except String`.

The shared primitive encoder (the external rivine `encoding` package) and the
cryptographic hash are collaborators of the core and are modelled from the
spec: integers are fixed 8-byte little-endian values, variable-length fields
are length-prefixed, fixed-size arrays are written raw, and the hash is an
arbitrary function on byte strings (taken injective where collision-freeness
is asserted).
-/

/-- Modelled from the spec: the external encoding package's 8-byte
little-endian integer encoding (`EncUint64`). -/
def encUint64 (n : Nat) : List Nat :=
  [n % 256, n / 256 % 256, n / 65536 % 256, n / 16777216 % 256,
   n / 4294967296 % 256, n / 1099511627776 % 256,
   n / 281474976710656 % 256, n / 72057594037927936 % 256]

/-- Modelled from the spec: decoding of an 8-byte little-endian integer
(`DecUint64`), consuming exactly eight bytes of the stream. -/
def decUint64 : List Nat → Option (Nat × List Nat)
  | b0 :: b1 :: b2 :: b3 :: b4 :: b5 :: b6 :: b7 :: rest =>
    some (b0 + b1 * 256 + b2 * 65536 + b3 * 16777216 + b4 * 4294967296 +
      b5 * 1099511627776 + b6 * 281474976710656 + b7 * 72057594037927936, rest)
  | _ => none

/-- Modelled from the spec: reading a fixed number of raw bytes from the
stream (used for fixed-size arrays such as 32-byte hashes). -/
def decBytesN (k : Nat) (b : List Nat) : Option (List Nat × List Nat) :=
  if k ≤ b.length then some (b.take k, b.drop k) else none

/-- Modelled from the spec: a variable-length byte field is written with an
8-byte little-endian length followed by the raw bytes. -/
def encByteSlice (bs : List Nat) : List Nat :=
  encUint64 bs.length ++ bs

/-- Modelled from the spec: decoding of a length-prefixed byte field. -/
def decByteSlice (b : List Nat) : Option (List Nat × List Nat) :=
  match decUint64 b with
  | none => none
  | some (n, b1) => decBytesN n b1

/-- Modelled from the spec: a sequence field is written with an 8-byte
little-endian element count followed by the elements in order. -/
def encListOf (enc : α → List Nat) (xs : List α) : List Nat :=
  encUint64 xs.length ++ (xs.map enc).flatten

/-- Decoding of exactly `n` consecutive elements. -/
def decN (dec : List Nat → Option (α × List Nat)) :
    Nat → List Nat → Option (List α × List Nat)
  | 0, b => some ([], b)
  | n + 1, b =>
    match dec b with
    | none => none
    | some (x, b1) =>
      match decN dec n b1 with
      | none => none
      | some (xs, b2) => some (x :: xs, b2)

/-- Modelled from the spec: decoding of a count-prefixed sequence field. -/
def decListOf (dec : List Nat → Option (α × List Nat)) (b : List Nat) :
    Option (List α × List Nat) :=
  match decUint64 b with
  | none => none
  | some (n, b1) => decN dec n b1

theorem decUint64_enc (n : Nat) (hn : n < 2 ^ 64) (r : List Nat) :
    decUint64 (encUint64 n ++ r) = some (n, r) := by
  simp only [encUint64, List.cons_append, List.nil_append, decUint64,
    Option.some.injEq, Prod.mk.injEq, and_true]
  omega

theorem decBytesN_enc (xs r : List Nat) :
    decBytesN xs.length (xs ++ r) = some (xs, r) := by
  simp [decBytesN]

theorem decByteSlice_enc (bs : List Nat) (hbs : bs.length < 2 ^ 64)
    (r : List Nat) : decByteSlice (encByteSlice bs ++ r) = some (bs, r) := by
  simp only [encByteSlice, List.append_assoc, decByteSlice,
    decUint64_enc bs.length hbs (bs ++ r)]
  exact decBytesN_enc bs r

theorem decN_enc (dec : List Nat → Option (α × List Nat)) (enc : α → List Nat)
    (xs : List α) (r : List Nat)
    (hx : ∀ x ∈ xs, ∀ r', dec (enc x ++ r') = some (x, r')) :
    decN dec xs.length ((xs.map enc).flatten ++ r) = some (xs, r) := by
  induction xs generalizing r with
  | nil => simp [decN]
  | cons x xs ih =>
    have hx0 := hx x (List.mem_cons_self x xs)
    have hxs : ∀ y ∈ xs, ∀ r', dec (enc y ++ r') = some (y, r') :=
      fun y hy => hx y (List.mem_cons_of_mem x hy)
    simp only [List.map_cons, List.flatten, List.append_assoc, List.length_cons,
      decN, hx0 ((xs.map enc).flatten ++ r), ih r hxs]

theorem decListOf_enc (dec : List Nat → Option (α × List Nat))
    (enc : α → List Nat) (xs : List α) (hlen : xs.length < 2 ^ 64)
    (r : List Nat) (hx : ∀ x ∈ xs, ∀ r', dec (enc x ++ r') = some (x, r')) :
    decListOf dec (encListOf enc xs ++ r) = some (xs, r) := by
  simp only [encListOf, List.append_assoc, decListOf,
    decUint64_enc xs.length hlen ((xs.map enc).flatten ++ r)]
  exact decN_enc dec enc xs r hx

/-!
Data model, translated from types/transaction.go.  `crypto.Hash` values
(32-byte arrays) and the external opaque `InputLockProxy` / `UnlockHash`
values are byte strings; `Currency` is modelled by the minimal big-endian
byte representation its arbitrary-precision integer marshals to (the core
uses it opaquely here).
-/

/-- A Currency value as marshalled: its minimal big-endian byte string. -/
abbrev Currency := List Nat

/-- A CoinInput consumes a CoinOutput: the 32-byte parent output ID and the
opaque unlocker (`InputLockProxy`, external). -/
structure CoinInput where
  parentID : List Nat
  unlocker : List Nat
deriving DecidableEq

/-- A CoinOutput holds a volume of coins locked to an unlock hash
(opaque external value). -/
structure CoinOutput where
  value : Currency
  unlockHash : List Nat
deriving DecidableEq

/-- A BlockStakeInput consumes a BlockStakeOutput. -/
structure BlockStakeInput where
  parentID : List Nat
  unlocker : List Nat
deriving DecidableEq

/-- A BlockStakeOutput holds a volume of blockstakes. -/
structure BlockStakeOutput where
  value : Currency
  unlockHash : List Nat
deriving DecidableEq

/-- The six core data fields of a transaction (everything except the version
and the extension). -/
structure TransactionData where
  coinInputs : List CoinInput
  coinOutputs : List CoinOutput
  blockStakeInputs : List BlockStakeInput
  blockStakeOutputs : List BlockStakeOutput
  minerFees : List Currency
  arbitraryData : List Nat
deriving DecidableEq

/-- A JSON value, used to model the JSON wire format. -/
inductive Json where
  | null
  | num (n : Nat)
  | str (s : String)
  | arr (elems : List Json)
  | obj (fields : List (String × Json))

/-- TransactionValidationContext is the context object given to a transaction
in order to validate it. -/
structure TransactionValidationContext where
  currentBlockHeight : Nat
  blockSizeLimit : Nat

/-- TransactionDataEncoder: the capability an Extension object can implement
to define custom encoding logic for transaction data.  The Go interface
receives the whole transaction; since an extension value cannot contain
functions over the type it is a field of, the capability here receives the
version and the core data fields. -/
structure TransactionDataEncoder where
  EncodeTransactionData : Nat → TransactionData → Except String (List Nat)
  JSONEncodeTransactionData : Nat → TransactionData → Except String Json

/-- TransactionValidator: the capability an Extension object can implement to
define custom validation logic, overwriting the default validation logic.
`none` is a nil error (valid); `some msg` is a rejection. -/
structure TransactionValidator where
  ValidateTransaction :
    TransactionValidationContext → Nat → TransactionData → Option String

/-- The polymorphic `Extension` interface field: an arbitrary value checked
dynamically for each capability.  A capability the value does not implement
is `none`; the nil extension implements none of them. -/
structure Extension where
  dataEncoder : Option TransactionDataEncoder
  validator : Option TransactionValidator

/-- The nil Extension. -/
def Extension.nil : Extension :=
  { dataEncoder := none, validator := none }

/-- A Transaction: version byte, the six core data fields, and the
polymorphic extension. -/
structure Transaction where
  version : Nat
  coinInputs : List CoinInput
  coinOutputs : List CoinOutput
  blockStakeInputs : List BlockStakeInput
  blockStakeOutputs : List BlockStakeOutput
  minerFees : List Currency
  arbitraryData : List Nat
  extension : Extension

/-- The six core data fields of a transaction. -/
def Transaction.coreData (t : Transaction) : TransactionData :=
  { coinInputs := t.coinInputs, coinOutputs := t.coinOutputs,
    blockStakeInputs := t.blockStakeInputs,
    blockStakeOutputs := t.blockStakeOutputs,
    minerFees := t.minerFees, arbitraryData := t.arbitraryData }

/-- Build a transaction from a version, core data fields and an extension. -/
def Transaction.withData (v : Nat) (d : TransactionData) (ext : Extension) :
    Transaction :=
  { version := v, coinInputs := d.coinInputs, coinOutputs := d.coinOutputs,
    blockStakeInputs := d.blockStakeInputs,
    blockStakeOutputs := d.blockStakeOutputs,
    minerFees := d.minerFees, arbitraryData := d.arbitraryData,
    extension := ext }

/-- TransactionDecoder: creates a transaction by decoding binary or
JSON-encoded data; the version is decoded upfront and passed in. -/
structure TransactionDecoder where
  DecodeTransactionData : Nat → List Nat → Except String Transaction
  JSONDecodeTransactionData : Nat → Json → Except String Transaction

/-- Modelled from the spec: `_RegisteredTransactionDecoders`, the process-wide
mapping from transaction version to registered decoder, populated at startup
and read-only afterwards; modelled as a lookup function. -/
def TransactionRegistry := Nat → Option TransactionDecoder

/-- ErrInvalidTransactionVersion. -/
def errInvalidTransactionVersion : String := "invalid transaction version"

/-- A malformed-encoding read error of the external decoder (truncated
input), distinct from the invalid-version error. -/
def errUnexpectedEOF : String := "unexpected EOF"

/-- Modelled from the spec: the sentinel unknown-version decoder used when no
decoder is registered for a version; it fails deterministically with the
invalid-version error. -/
def unknownTransactionDecoder : TransactionDecoder :=
  { DecodeTransactionData := fun _ _ => .error errInvalidTransactionVersion,
    JSONDecodeTransactionData := fun _ _ => .error errInvalidTransactionVersion }

/-- Binary encoding of a CoinInput: raw 32-byte parent ID, then the
length-prefixed opaque unlocker. -/
def encCoinInput (ci : CoinInput) : List Nat :=
  ci.parentID ++ encByteSlice ci.unlocker

/-- Binary decoding of a CoinInput. -/
def decCoinInput (b : List Nat) : Option (CoinInput × List Nat) :=
  match decBytesN 32 b with
  | none => none
  | some (pid, b1) =>
    match decByteSlice b1 with
    | none => none
    | some (ul, b2) => some ({ parentID := pid, unlocker := ul }, b2)

/-- Binary encoding of a CoinOutput: length-prefixed currency bytes, then the
length-prefixed opaque unlock hash. -/
def encCoinOutput (co : CoinOutput) : List Nat :=
  encByteSlice co.value ++ encByteSlice co.unlockHash

/-- Binary decoding of a CoinOutput. -/
def decCoinOutput (b : List Nat) : Option (CoinOutput × List Nat) :=
  match decByteSlice b with
  | none => none
  | some (v, b1) =>
    match decByteSlice b1 with
    | none => none
    | some (uh, b2) => some ({ value := v, unlockHash := uh }, b2)

/-- Binary encoding of a BlockStakeInput. -/
def encBlockStakeInput (bsi : BlockStakeInput) : List Nat :=
  bsi.parentID ++ encByteSlice bsi.unlocker

/-- Binary decoding of a BlockStakeInput. -/
def decBlockStakeInput (b : List Nat) : Option (BlockStakeInput × List Nat) :=
  match decBytesN 32 b with
  | none => none
  | some (pid, b1) =>
    match decByteSlice b1 with
    | none => none
    | some (ul, b2) => some ({ parentID := pid, unlocker := ul }, b2)

/-- Binary encoding of a BlockStakeOutput. -/
def encBlockStakeOutput (bso : BlockStakeOutput) : List Nat :=
  encByteSlice bso.value ++ encByteSlice bso.unlockHash

/-- Binary decoding of a BlockStakeOutput. -/
def decBlockStakeOutput (b : List Nat) :
    Option (BlockStakeOutput × List Nat) :=
  match decByteSlice b with
  | none => none
  | some (v, b1) =>
    match decByteSlice b1 with
    | none => none
    | some (uh, b2) => some ({ value := v, unlockHash := uh }, b2)

/-- The flat binary encoding of the six core data fields in declaration
order; this is both the legacy (version 0) payload and the blob that
`MarshalAll` produces for the versioned fallback path. -/
def encTransactionData (d : TransactionData) : List Nat :=
  encListOf encCoinInput d.coinInputs ++
  encListOf encCoinOutput d.coinOutputs ++
  encListOf encBlockStakeInput d.blockStakeInputs ++
  encListOf encBlockStakeOutput d.blockStakeOutputs ++
  encListOf encByteSlice d.minerFees ++
  encByteSlice d.arbitraryData

/-- Binary decoding of the six flat core data fields in order. -/
def decTransactionData (b : List Nat) : Option (TransactionData × List Nat) :=
  match decListOf decCoinInput b with
  | none => none
  | some (cis, b1) =>
    match decListOf decCoinOutput b1 with
    | none => none
    | some (cos, b2) =>
      match decListOf decBlockStakeInput b2 with
      | none => none
      | some (bsis, b3) =>
        match decListOf decBlockStakeOutput b3 with
        | none => none
        | some (bsos, b4) =>
          match decListOf decByteSlice b4 with
          | none => none
          | some (fees, b5) =>
            match decByteSlice b5 with
            | none => none
            | some (ad, b6) =>
              some ({ coinInputs := cis, coinOutputs := cos,
                      blockStakeInputs := bsis, blockStakeOutputs := bsos,
                      minerFees := fees, arbitraryData := ad }, b6)

/-- The single version byte written by TransactionVersion.MarshalSia. -/
def encVersion (v : Nat) : List Nat := [v % 256]

/-- Transaction.MarshalSia: a custom encoder produces the post-version
payload written as one length-prefixed field; the legacy version writes the
six core fields flat; any other version writes the six core fields merged
into one length-prefixed blob.  The version byte always comes first. -/
def Transaction.MarshalSia (t : Transaction) : Except String (List Nat) :=
  match t.extension.dataEncoder with
  | some encoder =>
    match encoder.EncodeTransactionData t.version t.coreData with
    | .error e => .error e
    | .ok rawData => .ok (encVersion t.version ++ encByteSlice rawData)
  | none =>
    if t.version = 0 then
      .ok (encVersion t.version ++ encTransactionData t.coreData)
    else
      .ok (encVersion t.version ++ encByteSlice (encTransactionData t.coreData))

/-- The bytes Transaction.MarshalSia writes to its writer: the encoding on
success, and nothing when the custom encoder fails (the error is returned
before anything is written). -/
def Transaction.marshalSiaBytes (t : Transaction) : List Nat :=
  match t.MarshalSia with
  | .ok bs => bs
  | .error _ => []

/-- Transaction.UnmarshalSia: reads the version byte, then either decodes the
six legacy fields flat (version 0) or reads the raw data blob and hands it to
the registered decoder for the version, falling back to the sentinel
unknown-version decoder.  Decoding targets a zero-value receiver, so the
legacy path yields a nil extension.  Returns the decoded transaction and the
unread remainder of the stream. -/
def Transaction.UnmarshalSia (reg : TransactionRegistry) (b : List Nat) :
    Except String (Transaction × List Nat) :=
  match b with
  | [] => .error errUnexpectedEOF
  | v :: rest =>
    if v = 0 then
      match decTransactionData rest with
      | none => .error errUnexpectedEOF
      | some (d, rest1) => .ok (Transaction.withData 0 d Extension.nil, rest1)
    else
      match decByteSlice rest with
      | none => .error errUnexpectedEOF
      | some (rawData, rest1) =>
        match ((reg v).getD unknownTransactionDecoder).DecodeTransactionData
            v rawData with
        | .error e => .error e
        | .ok t => .ok (t, rest1)

/-!
Well-formedness of field values: fixed-size hashes are 32 bytes, every byte
is a byte, and every variable-length field fits its 8-byte length prefix.
-/

/-- All entries of a byte string are bytes. -/
abbrev bytesWF (bs : List Nat) : Prop := ∀ x ∈ bs, x < 256

/-- Well-formed CoinInput: 32-byte parent ID, unlocker fits its prefix. -/
abbrev CoinInput.wellFormed (ci : CoinInput) : Prop :=
  ci.parentID.length = 32 ∧ bytesWF ci.parentID ∧
  ci.unlocker.length < 2 ^ 64 ∧ bytesWF ci.unlocker

/-- Well-formed CoinOutput. -/
abbrev CoinOutput.wellFormed (co : CoinOutput) : Prop :=
  co.value.length < 2 ^ 64 ∧ bytesWF co.value ∧
  co.unlockHash.length < 2 ^ 64 ∧ bytesWF co.unlockHash

/-- Well-formed BlockStakeInput. -/
abbrev BlockStakeInput.wellFormed (bsi : BlockStakeInput) : Prop :=
  bsi.parentID.length = 32 ∧ bytesWF bsi.parentID ∧
  bsi.unlocker.length < 2 ^ 64 ∧ bytesWF bsi.unlocker

/-- Well-formed BlockStakeOutput. -/
abbrev BlockStakeOutput.wellFormed (bso : BlockStakeOutput) : Prop :=
  bso.value.length < 2 ^ 64 ∧ bytesWF bso.value ∧
  bso.unlockHash.length < 2 ^ 64 ∧ bytesWF bso.unlockHash

/-- Well-formed core data fields. -/
abbrev TransactionData.wellFormed (d : TransactionData) : Prop :=
  d.coinInputs.length < 2 ^ 64 ∧ (∀ ci ∈ d.coinInputs, ci.wellFormed) ∧
  d.coinOutputs.length < 2 ^ 64 ∧ (∀ co ∈ d.coinOutputs, co.wellFormed) ∧
  d.blockStakeInputs.length < 2 ^ 64 ∧
    (∀ bsi ∈ d.blockStakeInputs, bsi.wellFormed) ∧
  d.blockStakeOutputs.length < 2 ^ 64 ∧
    (∀ bso ∈ d.blockStakeOutputs, bso.wellFormed) ∧
  d.minerFees.length < 2 ^ 64 ∧
    (∀ c ∈ d.minerFees, c.length < 2 ^ 64 ∧ bytesWF c) ∧
  d.arbitraryData.length < 2 ^ 64 ∧ bytesWF d.arbitraryData

/-- Well-formed transaction: a byte-sized version, well-formed fields, and a
core-field blob that fits its length prefix. -/
abbrev Transaction.wellFormed (t : Transaction) : Prop :=
  t.version < 256 ∧ t.coreData.wellFormed ∧
  (encTransactionData t.coreData).length < 2 ^ 64

theorem decCoinInput_enc (ci : CoinInput) (h : ci.wellFormed) (r : List Nat) :
    decCoinInput (encCoinInput ci ++ r) = some (ci, r) := by
  obtain ⟨h32, -, hul, -⟩ := h
  have h1 := decBytesN_enc ci.parentID (encByteSlice ci.unlocker ++ r)
  rw [h32] at h1
  simp only [encCoinInput, List.append_assoc, decCoinInput, h1,
    decByteSlice_enc ci.unlocker hul r]

theorem decCoinOutput_enc (co : CoinOutput) (h : co.wellFormed)
    (r : List Nat) : decCoinOutput (encCoinOutput co ++ r) = some (co, r) := by
  obtain ⟨hv, -, huh, -⟩ := h
  simp only [encCoinOutput, List.append_assoc, decCoinOutput,
    decByteSlice_enc co.value hv (encByteSlice co.unlockHash ++ r),
    decByteSlice_enc co.unlockHash huh r]

theorem decBlockStakeInput_enc (bsi : BlockStakeInput) (h : bsi.wellFormed)
    (r : List Nat) :
    decBlockStakeInput (encBlockStakeInput bsi ++ r) = some (bsi, r) := by
  obtain ⟨h32, -, hul, -⟩ := h
  have h1 := decBytesN_enc bsi.parentID (encByteSlice bsi.unlocker ++ r)
  rw [h32] at h1
  simp only [encBlockStakeInput, List.append_assoc, decBlockStakeInput, h1,
    decByteSlice_enc bsi.unlocker hul r]

theorem decBlockStakeOutput_enc (bso : BlockStakeOutput) (h : bso.wellFormed)
    (r : List Nat) :
    decBlockStakeOutput (encBlockStakeOutput bso ++ r) = some (bso, r) := by
  obtain ⟨hv, -, huh, -⟩ := h
  simp only [encBlockStakeOutput, List.append_assoc, decBlockStakeOutput,
    decByteSlice_enc bso.value hv (encByteSlice bso.unlockHash ++ r),
    decByteSlice_enc bso.unlockHash huh r]

theorem decTransactionData_enc (d : TransactionData) (h : d.wellFormed)
    (r : List Nat) :
    decTransactionData (encTransactionData d ++ r) = some (d, r) := by
  obtain ⟨hci, hciw, hco, hcow, hbi, hbiw, hbo, hbow, hmf, hmfw, had, -⟩ := h
  simp only [encTransactionData, List.append_assoc, decTransactionData,
    decListOf_enc decCoinInput encCoinInput d.coinInputs hci _
      (fun x hx r' => decCoinInput_enc x (hciw x hx) r'),
    decListOf_enc decCoinOutput encCoinOutput d.coinOutputs hco _
      (fun x hx r' => decCoinOutput_enc x (hcow x hx) r'),
    decListOf_enc decBlockStakeInput encBlockStakeInput d.blockStakeInputs
      hbi _ (fun x hx r' => decBlockStakeInput_enc x (hbiw x hx) r'),
    decListOf_enc decBlockStakeOutput encBlockStakeOutput d.blockStakeOutputs
      hbo _ (fun x hx r' => decBlockStakeOutput_enc x (hbow x hx) r'),
    decListOf_enc decByteSlice encByteSlice d.minerFees hmf _
      (fun x hx r' => decByteSlice_enc x (hmfw x hx).1 r'),
    decByteSlice_enc d.arbitraryData had r]

/-- Modelled from the spec: a registered decoder for a versioned extension
that uses the standard blob framing — it decodes the raw payload as the six
flat core fields (the exact inverse of the non-custom versioned encoding)
and populates a transaction carrying the received version. -/
def registeredBlobDecoder : TransactionDecoder :=
  { DecodeTransactionData := fun v rawData =>
      match decTransactionData rawData with
      | some (d, []) => .ok (Transaction.withData v d Extension.nil)
      | _ => .error errUnexpectedEOF,
    JSONDecodeTransactionData := fun _ _ => .error errUnexpectedEOF }

/-!
Identifier derivation, translated from Transaction.ID / CoinOutputID /
BlockStakeOutputID.  `crypto.HashAll(objs...)` hashes the concatenation of
the canonical encodings of its arguments; the hash function itself is an
external collaborator and is a parameter `H` here.
-/

/-- The Specifier tag "coin output" (16 bytes, zero padded). -/
def SpecifierCoinOutput : List Nat :=
  [99, 111, 105, 110, 32, 111, 117, 116, 112, 117, 116, 0, 0, 0, 0, 0]

/-- The Specifier tag "blstake output" (16 bytes, zero padded). -/
def SpecifierBlockStakeOutput : List Nat :=
  [98, 108, 115, 116, 97, 107, 101, 32, 111, 117, 116, 112, 117, 116, 0, 0]

/-- Transaction.ID: for the legacy version 0 the hash input is the flat
encoding of the six core fields (the version byte is not part of it); for
any other version the hash input is exactly the bytes MarshalSia writes. -/
def Transaction.ID (H : List Nat → List Nat) (t : Transaction) : List Nat :=
  if t.version = 0 then H (encTransactionData t.coreData)
  else H t.marshalSiaBytes

/-- Transaction.CoinOutputID: hash of the coin-output specifier, the
transaction hash input of the matching version rule, and the output index. -/
def Transaction.CoinOutputID (H : List Nat → List Nat) (t : Transaction)
    (i : Nat) : List Nat :=
  if t.version = 0 then
    H (SpecifierCoinOutput ++ encTransactionData t.coreData ++ encUint64 i)
  else
    H (SpecifierCoinOutput ++ t.marshalSiaBytes ++ encUint64 i)

/-- Transaction.BlockStakeOutputID: as CoinOutputID with the blockstake
specifier. -/
def Transaction.BlockStakeOutputID (H : List Nat → List Nat)
    (t : Transaction) (i : Nat) : List Nat :=
  if t.version = 0 then
    H (SpecifierBlockStakeOutput ++ encTransactionData t.coreData ++
       encUint64 i)
  else
    H (SpecifierBlockStakeOutput ++ t.marshalSiaBytes ++ encUint64 i)

/-!
JSON envelope, translated from Transaction.MarshalJSON / UnmarshalJSON.  The
JSON encodings of the leaf values (hashes, unlockers, currencies) are
external collaborators; they are modelled as plain byte-array values, which
keeps the envelope and key structure — the subject of the claims — exact.
-/

/-- Modelled leaf encoding of an opaque byte value. -/
def jsonBytes (bs : List Nat) : Json := .arr (bs.map .num)

/-- JSON encoding of a CoinInput under its struct tags. -/
def jsonCoinInput (ci : CoinInput) : Json :=
  .obj [("parentid", jsonBytes ci.parentID), ("unlocker", jsonBytes ci.unlocker)]

/-- JSON encoding of a CoinOutput under its struct tags. -/
def jsonCoinOutput (co : CoinOutput) : Json :=
  .obj [("value", jsonBytes co.value), ("unlockhash", jsonBytes co.unlockHash)]

/-- JSON encoding of a BlockStakeInput under its struct tags. -/
def jsonBlockStakeInput (bsi : BlockStakeInput) : Json :=
  .obj [("parentid", jsonBytes bsi.parentID),
        ("unlocker", jsonBytes bsi.unlocker)]

/-- JSON encoding of a BlockStakeOutput under its struct tags. -/
def jsonBlockStakeOutput (bso : BlockStakeOutput) : Json :=
  .obj [("value", jsonBytes bso.value),
        ("unlockhash", jsonBytes bso.unlockHash)]

/-- The legacy six-field JSON data object (struct
jsonLegacyTransactionVersion): keys in declaration order, with the four
omitempty fields dropped when empty; coininputs and minerfees always
present. -/
def jsonLegacyTransactionVersion (t : Transaction) : Json :=
  .obj (("coininputs", Json.arr (t.coinInputs.map jsonCoinInput)) ::
    ((if t.coinOutputs.isEmpty then [] else
       [("coinoutputs", Json.arr (t.coinOutputs.map jsonCoinOutput))]) ++
     (if t.blockStakeInputs.isEmpty then [] else
       [("blockstakeinputs",
         Json.arr (t.blockStakeInputs.map jsonBlockStakeInput))]) ++
     (if t.blockStakeOutputs.isEmpty then [] else
       [("blockstakeoutputs",
         Json.arr (t.blockStakeOutputs.map jsonBlockStakeOutput))]) ++
     [("minerfees", Json.arr (t.minerFees.map jsonBytes))] ++
     (if t.arbitraryData.isEmpty then [] else
       [("arbitrarydata", jsonBytes t.arbitraryData)])))

/-- Transaction.MarshalJSON: the outer envelope always pairs the "version"
key with the version number and the "data" key with a payload `D`, where
`D` is the custom encoder payload when the
extension implements one, and the legacy six-field object otherwise. -/
def Transaction.MarshalJSON (t : Transaction) : Except String Json :=
  match t.extension.dataEncoder with
  | some encoder =>
    match encoder.JSONEncodeTransactionData t.version t.coreData with
    | .error e => .error e
    | .ok data => .ok (.obj [("version", .num t.version), ("data", data)])
  | none =>
    .ok (.obj [("version", .num t.version),
               ("data", jsonLegacyTransactionVersion t)])

/-- Lookup of an object key. -/
def jsonLookup (fields : List (String × Json)) (k : String) : Option Json :=
  (fields.find? (fun f => f.1 == k)).map (fun f => f.2)

/-- Modelled leaf decoding of an opaque byte value. -/
def jsonDecBytes : Json → Option (List Nat)
  | .arr es => es.mapM (fun e => match e with | .num n => some n | _ => none)
  | _ => none

/-- JSON decoding of a CoinInput. -/
def jsonDecCoinInput : Json → Option CoinInput
  | .obj fields =>
    match jsonLookup fields "parentid", jsonLookup fields "unlocker" with
    | some jp, some ju =>
      match jsonDecBytes jp, jsonDecBytes ju with
      | some p, some u => some { parentID := p, unlocker := u }
      | _, _ => none
    | _, _ => none
  | _ => none

/-- JSON decoding of a CoinOutput. -/
def jsonDecCoinOutput : Json → Option CoinOutput
  | .obj fields =>
    match jsonLookup fields "value", jsonLookup fields "unlockhash" with
    | some jv, some ju =>
      match jsonDecBytes jv, jsonDecBytes ju with
      | some v, some u => some { value := v, unlockHash := u }
      | _, _ => none
    | _, _ => none
  | _ => none

/-- JSON decoding of a BlockStakeInput. -/
def jsonDecBlockStakeInput : Json → Option BlockStakeInput
  | .obj fields =>
    match jsonLookup fields "parentid", jsonLookup fields "unlocker" with
    | some jp, some ju =>
      match jsonDecBytes jp, jsonDecBytes ju with
      | some p, some u => some { parentID := p, unlocker := u }
      | _, _ => none
    | _, _ => none
  | _ => none

/-- JSON decoding of a BlockStakeOutput. -/
def jsonDecBlockStakeOutput : Json → Option BlockStakeOutput
  | .obj fields =>
    match jsonLookup fields "value", jsonLookup fields "unlockhash" with
    | some jv, some ju =>
      match jsonDecBytes jv, jsonDecBytes ju with
      | some v, some u => some { value := v, unlockHash := u }
      | _, _ => none
    | _, _ => none
  | _ => none

/-- JSON decoding of a possibly-omitted sequence field: a missing or null
field is the zero value (the empty sequence). -/
def jsonDecListOf (dec : Json → Option α) : Option Json → Option (List α)
  | none => some []
  | some .null => some []
  | some (.arr es) => es.mapM dec
  | some _ => none

/-- JSON decoding of a possibly-omitted byte field: missing or null is the
zero value (the empty byte string). -/
def jsonDecBytesOpt : Option Json → Option (List Nat)
  | none => some []
  | some .null => some []
  | some j => jsonDecBytes j

/-- JSON decoding of the legacy six-field data object. -/
def jsonDecodeLegacyData : Json → Option TransactionData
  | .obj fields =>
    match jsonDecListOf jsonDecCoinInput (jsonLookup fields "coininputs"),
        jsonDecListOf jsonDecCoinOutput (jsonLookup fields "coinoutputs"),
        jsonDecListOf jsonDecBlockStakeInput
          (jsonLookup fields "blockstakeinputs"),
        jsonDecListOf jsonDecBlockStakeOutput
          (jsonLookup fields "blockstakeoutputs"),
        jsonDecListOf jsonDecBytes (jsonLookup fields "minerfees"),
        jsonDecBytesOpt (jsonLookup fields "arbitrarydata") with
    | some cis, some cos, some bsis, some bsos, some fees, some ad =>
      some { coinInputs := cis, coinOutputs := cos, blockStakeInputs := bsis,
             blockStakeOutputs := bsos, minerFees := fees,
             arbitraryData := ad }
    | _, _, _, _, _, _ => none
  | _ => none

/-- Transaction.UnmarshalJSON: parse the version/data envelope object,
decode the legacy data object for version 0, and otherwise route the data to
the registered decoder for the version (the sentinel unknown-version decoder
when none is registered). -/
def Transaction.UnmarshalJSON (reg : TransactionRegistry) (j : Json) :
    Except String Transaction :=
  match j with
  | .obj fields =>
    match jsonLookup fields "version" with
    | some (.num v) =>
      let data := (jsonLookup fields "data").getD .null
      if v = 0 then
        match jsonDecodeLegacyData data with
        | some d => .ok (Transaction.withData 0 d Extension.nil)
        | none => .error errUnexpectedEOF
      else
        ((reg v).getD unknownTransactionDecoder).JSONDecodeTransactionData
          v data
    | _ => .error errUnexpectedEOF
  | _ => .error errUnexpectedEOF

/-- The keys of a JSON object, in order. -/
def jsonObjKeys : Json → List String
  | .obj fields => fields.map (fun f => f.1)
  | _ => []

/-!
Validation dispatch and standardness, translated from
Transaction.ValidateTransaction / IsStandardTransaction.  The default legacy
validation routine lives outside this core (block-level consensus owns it);
it is passed as the parameter `defaultTransactionValidation`.
-/

/-- Transaction.ValidateTransaction: delegate entirely to the extension's
validator capability when implemented, otherwise run the default legacy
validation routine. -/
def Transaction.ValidateTransaction
    (defaultTransactionValidation :
      TransactionValidationContext → Transaction → Option String)
    (t : Transaction) (ctx : TransactionValidationContext) : Option String :=
  match t.extension.validator with
  | some validator =>
    validator.ValidateTransaction ctx t.version t.coreData
  | none => defaultTransactionValidation ctx t

/-- Transaction.IsStandardTransaction: version 0 is standard; any other
version is standard exactly when a decoder is registered for it, and yields
ErrInvalidTransactionVersion otherwise. -/
def Transaction.IsStandardTransaction (reg : TransactionRegistry)
    (t : Transaction) : Option String :=
  if t.version = 0 then none
  else if (reg t.version).isSome then none
  else some errInvalidTransactionVersion

/-!
TransactionShortID, translated from NewTransactionShortID and its masking
constants.  The 64-bit value is a Nat; the uint64 shift wraps with an
explicit `% 2 ^ 64`, and the uint16 conversion of the extracted sequence
index carries an explicit `% 2 ^ 16`.  A `none` result models the panic on a
violated precondition.
-/

/-- Mask of the 14 high bits of a uint64: a block height that reaches them is
out of bounds. -/
def blockHeightOOBMask : Nat := 0xFFFC000000000000

/-- Number of bits reserved for the transaction sequence index. -/
def txShortIDBlockHeightShift : Nat := 14

/-- Mask of the 2 high bits of a uint16: a sequence index that reaches them
is out of bounds. -/
def txSeqIndexOOBMask : Nat := 0xC000

/-- Mask of the 14 low bits holding the sequence index. -/
def txSeqIndexMaxMask : Nat := 0x3FFF

/-- NewTransactionShortID: panics (modelled as `none`) when the height or the
sequence index hits its out-of-bounds mask; otherwise packs
`[ blockHeight: 50 bits | txSequenceIndex: 14 bits ]`. -/
def newTransactionShortID (height txSequenceID : Nat) : Option Nat :=
  if height &&& blockHeightOOBMask > 0 then none
  else if txSequenceID &&& txSeqIndexOOBMask > 0 then none
  else some (((height <<< txShortIDBlockHeightShift) % 2 ^ 64) |||
             (txSequenceID &&& txSeqIndexMaxMask))

/-- TransactionShortID.BlockHeight: the height part, by right shift. -/
def TransactionShortID.BlockHeight (txsid : Nat) : Nat :=
  txsid >>> txShortIDBlockHeightShift

/-- TransactionShortID.TransactionSequenceIndex: the low 14 bits, converted
to uint16. -/
def TransactionShortID.TransactionSequenceIndex (txsid : Nat) : Nat :=
  (txsid &&& txSeqIndexMaxMask) % 2 ^ 16

/-!
Specifier.String, translated byte for byte from the Go loop: the loop index
stops at the index of the first zero byte, or — when no byte is zero — at the
last index of the array, and the returned string is the slice up to that
index (exclusive).
-/

/-- The final value of the loop index of Specifier.String: the index of the
first zero byte, or the last index when no byte is zero. -/
def specStringIdx : List Nat → Nat
  | [] => 0
  | [_] => 0
  | b :: rest => if b = 0 then 0 else 1 + specStringIdx rest

/-- Specifier.String (as its byte content). -/
def Specifier.StringBytes (s : List Nat) : List Nat :=
  s.take (specStringIdx s)

/-- Byte content to a Lean string. -/
def bytesToString (bs : List Nat) : String :=
  String.mk (bs.map Char.ofNat)

/-- Specifier.MarshalJSON: the JSON string of Specifier.String. -/
def Specifier.MarshalJSON (s : List Nat) : Json :=
  .str (bytesToString (Specifier.StringBytes s))

/-!
Helper lemmas for the short-ID bit packing.
-/

theorem and_shifted_ones_eq_zero_iff {a k n : Nat} (hkn : k ≤ n)
    (ha : a < 2 ^ n) :
    (a &&& ((2 ^ (n - k) - 1) <<< k) = 0 ↔ a < 2 ^ k) := by
  constructor
  · intro h0
    refine Nat.lt_pow_two_of_testBit a (fun i hi => ?_)
    by_cases hin : i < n
    · have hb : (a &&& ((2 ^ (n - k) - 1) <<< k)).testBit i = false := by
        rw [h0]; exact Nat.zero_testBit i
      rw [Nat.testBit_and, Nat.testBit_shiftLeft,
        Nat.testBit_two_pow_sub_one] at hb
      have h1 : decide (i ≥ k) = true := by simpa using hi
      have h2 : decide (i - k < n - k) = true := by
        simp only [decide_eq_true_eq]; omega
      simpa [h1, h2] using hb
    · exact Nat.testBit_lt_two_pow
        (lt_of_lt_of_le ha (Nat.pow_le_pow_right (by norm_num) (by omega)))
  · intro hlt
    refine Nat.eq_of_testBit_eq (fun i => ?_)
    rw [Nat.testBit_and, Nat.testBit_shiftLeft, Nat.zero_testBit]
    by_cases hik : k ≤ i
    · have : a.testBit i = false := Nat.testBit_lt_two_pow
        (lt_of_lt_of_le hlt (Nat.pow_le_pow_right (by norm_num) hik))
      simp [this]
    · simp [hik]

theorem blockHeightOOBMask_eq : blockHeightOOBMask = (2 ^ 14 - 1) <<< 50 := by
  decide

theorem txSeqIndexOOBMask_eq : txSeqIndexOOBMask = (2 ^ 2 - 1) <<< 14 := by
  decide

theorem height_mask_zero_iff {h : Nat} (hh : h < 2 ^ 64) :
    (h &&& blockHeightOOBMask = 0 ↔ h < 2 ^ 50) := by
  rw [blockHeightOOBMask_eq,
    show (14 : Nat) = 64 - 50 from by norm_num]
  exact and_shifted_ones_eq_zero_iff (by norm_num) hh

theorem seq_mask_zero_iff {s : Nat} (hs : s < 2 ^ 16) :
    (s &&& txSeqIndexOOBMask = 0 ↔ s < 2 ^ 14) := by
  rw [txSeqIndexOOBMask_eq, show (2 : Nat) = 16 - 14 from by norm_num]
  exact and_shifted_ones_eq_zero_iff (by norm_num) hs

theorem newTransactionShortID_eq_some {h s : Nat} (hh : h < 2 ^ 50)
    (hs : s < 2 ^ 14) :
    newTransactionShortID h s = some (h * 2 ^ 14 + s) := by
  have hM : h &&& blockHeightOOBMask = 0 :=
    (height_mask_zero_iff (lt_trans hh (by norm_num))).mpr hh
  have hm : s &&& txSeqIndexOOBMask = 0 :=
    (seq_mask_zero_iff (lt_trans hs (by norm_num))).mpr hs
  have hmax : s &&& txSeqIndexMaxMask = s := by
    rw [show txSeqIndexMaxMask = 2 ^ 14 - 1 from by decide,
      Nat.and_pow_two_sub_one_eq_mod]
    exact Nat.mod_eq_of_lt hs
  have hshift : (h <<< txShortIDBlockHeightShift) % 2 ^ 64 = h * 2 ^ 14 := by
    rw [show txShortIDBlockHeightShift = 14 from rfl, Nat.shiftLeft_eq]
    refine Nat.mod_eq_of_lt ?_
    calc h * 2 ^ 14 < 2 ^ 50 * 2 ^ 14 :=
          Nat.mul_lt_mul_of_lt_of_le hh (le_refl _) (by norm_num)
      _ = 2 ^ 64 := by norm_num
  have hor : h * 2 ^ 14 ||| s = h * 2 ^ 14 + s := by
    rw [mul_comm h (2 ^ 14), ← Nat.mul_add_lt_is_or hs h, mul_comm]
  simp only [newTransactionShortID, hM, hm, hmax, hshift, hor,
    Nat.lt_irrefl, if_false, gt_iff_lt]

/-- Claim C6: NewTransactionShortID fails fatally (panics) precisely when a
bound is violated: within the uint64/uint16 argument domains it panics for
every height at or above 2 ^ 50 and for every sequence index at or above
2 ^ 14, and completes without panicking on every in-range pair. -/
theorem newTransactionShortID_panics_iff (h s : Nat) (hh : h < 2 ^ 64)
    (hs : s < 2 ^ 16) :
    (newTransactionShortID h s = none ↔ 2 ^ 50 ≤ h ∨ 2 ^ 14 ≤ s) := by
  have h1 := height_mask_zero_iff hh
  have h2 := seq_mask_zero_iff hs
  by_cases c1 : h &&& blockHeightOOBMask > 0
  · simp only [newTransactionShortID, c1, if_true, true_iff]
    exact Or.inl (le_of_not_lt fun hlt =>
      Nat.pos_iff_ne_zero.mp c1 (h1.mpr hlt))
  · by_cases c2 : s &&& txSeqIndexOOBMask > 0
    · simp only [newTransactionShortID, c1, c2, if_true, if_false, true_iff]
      exact Or.inr (le_of_not_lt fun hlt =>
        Nat.pos_iff_ne_zero.mp c2 (h2.mpr hlt))
    · simp only [newTransactionShortID, c1, c2, if_false,
        reduceCtorEq, false_iff]
      have hh50 : h < 2 ^ 50 := h1.mp (by omega)
      have hs14 : s < 2 ^ 14 := h2.mp (by omega)
      rintro (hge | hge) <;> omega

/-- Witness for C6: height 2 ^ 50 (one over the limit) panics; the in-range
pair (12, 7) does not. -/
theorem newTransactionShortID_panics_iff_witness :
    newTransactionShortID (2 ^ 50) 0 = none ∧
    newTransactionShortID 12 7 ≠ none := by
  constructor
  · exact (newTransactionShortID_panics_iff (2 ^ 50) 0 (by norm_num)
      (by norm_num)).mpr (Or.inl (le_refl _))
  · intro hc
    rcases (newTransactionShortID_panics_iff 12 7 (by norm_num)
      (by norm_num)).mp hc with hge | hge <;> omega

/-- Claim C7: short-ID packing round-trip — for every height below 2 ^ 50
and sequence index below 2 ^ 14, construction succeeds and BlockHeight /
TransactionSequenceIndex extract the original components. -/
theorem transactionShortID_roundtrip (h s : Nat) (hh : h < 2 ^ 50)
    (hs : s < 2 ^ 14) :
    ∃ id, newTransactionShortID h s = some id ∧
      TransactionShortID.BlockHeight id = h ∧
      TransactionShortID.TransactionSequenceIndex id = s := by
  refine ⟨h * 2 ^ 14 + s, newTransactionShortID_eq_some hh hs, ?_, ?_⟩
  · rw [TransactionShortID.BlockHeight,
      show txShortIDBlockHeightShift = 14 from rfl, Nat.shiftRight_eq_div_pow]
    omega
  · rw [TransactionShortID.TransactionSequenceIndex,
      show txSeqIndexMaxMask = 2 ^ 14 - 1 from by decide,
      Nat.and_pow_two_sub_one_eq_mod]
    omega

/-- Witness for C7, at the pair (12345, 42) named by the spec. -/
theorem transactionShortID_roundtrip_witness :
    ∃ id, newTransactionShortID 12345 42 = some id ∧
      TransactionShortID.BlockHeight id = 12345 ∧
      TransactionShortID.TransactionSequenceIndex id = 42 :=
  transactionShortID_roundtrip 12345 42 (by norm_num) (by norm_num)

/-- Claim C8: short-ID order preservation — for in-range pairs, the packed
64-bit values compare exactly as the (height, sequence index) pairs compare
in chain (lexicographic) order. -/
theorem transactionShortID_order_preserving (h1 s1 h2 s2 id1 id2 : Nat)
    (hh1 : h1 < 2 ^ 50) (hs1 : s1 < 2 ^ 14) (hh2 : h2 < 2 ^ 50)
    (hs2 : s2 < 2 ^ 14)
    (e1 : newTransactionShortID h1 s1 = some id1)
    (e2 : newTransactionShortID h2 s2 = some id2) :
    (id1 < id2 ↔ h1 < h2 ∨ (h1 = h2 ∧ s1 < s2)) := by
  rw [newTransactionShortID_eq_some hh1 hs1, Option.some.injEq] at e1
  rw [newTransactionShortID_eq_some hh2 hs2, Option.some.injEq] at e2
  subst e1; subst e2
  omega

/-- Witness for C8: (3, 1) precedes (3, 2). -/
theorem transactionShortID_order_preserving_witness :
    ∃ a b, newTransactionShortID 3 1 = some a ∧
      newTransactionShortID 3 2 = some b ∧
      (a < b ↔ (3 < 3 ∨ (3 = 3 ∧ 1 < 2))) := by
  refine ⟨3 * 2 ^ 14 + 1, 3 * 2 ^ 14 + 2,
    newTransactionShortID_eq_some (by norm_num) (by norm_num),
    newTransactionShortID_eq_some (by norm_num) (by norm_num), ?_⟩
  exact transactionShortID_order_preserving 3 1 3 2 _ _ (by norm_num)
    (by norm_num) (by norm_num) (by norm_num)
    (newTransactionShortID_eq_some (by norm_num) (by norm_num))
    (newTransactionShortID_eq_some (by norm_num) (by norm_num))

/-- Claim C5 (code bug): on a specifier with no zero byte the String loop
index stops at the last array index, so only the first 15 of the 16 bytes
are returned — the claim (and the function's own documentation, which
promises only trailing zeros are trimmed) expects all 16.  Evaluated here at
the 16-byte all-ones specifier: the code keeps 15 bytes while the documented
trim-up-to-first-zero rule keeps all 16, and MarshalJSON emits the same
15-byte string. -/
theorem specifierString_drops_last_byte_when_no_zero :
    Specifier.StringBytes (List.replicate 16 1) = List.replicate 15 1 ∧
    (List.replicate 16 1 : List Nat).takeWhile (fun b => b != 0) =
      List.replicate 16 1 ∧
    Specifier.MarshalJSON (List.replicate 16 1) =
      .str (bytesToString (List.replicate 15 1)) := by
  refine ⟨by decide, by decide, ?_⟩
  have h : Specifier.StringBytes (List.replicate 16 1) =
      List.replicate 15 1 := by decide
  rw [Specifier.MarshalJSON, h]

/-- Claim C9: validation dispatch — when the extension implements the
validator capability, ValidateTransaction returns exactly the extension's
result, for every default legacy validation routine alike (so the default
one is never consulted); when it does not, the default legacy validation
routine's result is returned. -/
theorem validateTransaction_dispatch (t : Transaction)
    (ctx : TransactionValidationContext) :
    (∀ v, t.extension.validator = some v →
      ∀ defaultTransactionValidation,
        t.ValidateTransaction defaultTransactionValidation ctx =
          v.ValidateTransaction ctx t.version t.coreData) ∧
    (t.extension.validator = none →
      ∀ defaultTransactionValidation,
        t.ValidateTransaction defaultTransactionValidation ctx =
          defaultTransactionValidation ctx t) := by
  constructor
  · intro v hv d
    rw [Transaction.ValidateTransaction, hv]
  · intro hn d
    rw [Transaction.ValidateTransaction, hn]

/-- An extension whose only capability is a validator that rejects
everything with a fixed message (a test double recording delegation). -/
def recordingValidator : TransactionValidator :=
  { ValidateTransaction := fun _ _ _ => some "extension called" }

/-- A default legacy validation routine double with a distinct result. -/
def defaultValidationDouble :
    TransactionValidationContext → Transaction → Option String :=
  fun _ _ => some "default called"

/-- The empty registry: no versioned decoder registered. -/
def emptyRegistry : TransactionRegistry := fun _ => none

/-- A version-1 transaction whose extension carries only the recording
validator. -/
def validatorOnlyTxn : Transaction :=
  { version := 1, coinInputs := [], coinOutputs := [], blockStakeInputs := [],
    blockStakeOutputs := [], minerFees := [], arbitraryData := [],
    extension := { dataEncoder := none, validator := some recordingValidator } }

/-- Witness for C9: on a transaction with a validator-only extension the
result is the extension's, not the default's, and on the same transaction
with a nil extension the default's result comes back. -/
theorem validateTransaction_dispatch_witness :
    validatorOnlyTxn.ValidateTransaction defaultValidationDouble
        ⟨0, 0⟩ = some "extension called" ∧
    (Transaction.withData 1 validatorOnlyTxn.coreData
        Extension.nil).ValidateTransaction defaultValidationDouble
        ⟨0, 0⟩ = some "default called" := by
  constructor
  · rw [(validateTransaction_dispatch validatorOnlyTxn ⟨0, 0⟩).1
      recordingValidator rfl defaultValidationDouble]
    rfl
  · rw [(validateTransaction_dispatch
      (Transaction.withData 1 validatorOnlyTxn.coreData Extension.nil)
      ⟨0, 0⟩).2 rfl defaultValidationDouble]
    rfl

/-- Claim C10: for every transaction whose extension does not implement the
data-encoder capability — any version, including every version above 0 —
MarshalJSON succeeds with the envelope carrying the version number and the
legacy six-field data object, whose keys are the six lower-case field names
with the empty ones omitted except coininputs and minerfees. -/
theorem marshalJSON_legacy_fallback (t : Transaction)
    (h : t.extension.dataEncoder = none) :
    t.MarshalJSON = .ok (.obj [("version", .num t.version),
      ("data", jsonLegacyTransactionVersion t)]) ∧
    jsonObjKeys (jsonLegacyTransactionVersion t) =
      "coininputs" ::
        ((if t.coinOutputs.isEmpty then [] else ["coinoutputs"]) ++
         (if t.blockStakeInputs.isEmpty then [] else ["blockstakeinputs"]) ++
         (if t.blockStakeOutputs.isEmpty then [] else ["blockstakeoutputs"]) ++
         ["minerfees"] ++
         (if t.arbitraryData.isEmpty then [] else ["arbitrarydata"])) := by
  constructor
  · rw [Transaction.MarshalJSON, h]
  · rw [jsonLegacyTransactionVersion, jsonObjKeys]
    simp only [List.map_cons, List.map_append]
    split_ifs <;> simp

/-- A version-3 transaction with no extension, one coin output and some
arbitrary data. -/
def exampleTxnV3 : Transaction :=
  { version := 3, coinInputs := [],
    coinOutputs := [{ value := [2], unlockHash := [9, 9] }],
    blockStakeInputs := [], blockStakeOutputs := [],
    minerFees := [[1]], arbitraryData := [7],
    extension := Extension.nil }

/-- Witness for C10 at a version-3 transaction without a custom encoder:
MarshalJSON succeeds and the data object has exactly the keys coininputs,
coinoutputs, minerfees and arbitrarydata. -/
theorem marshalJSON_legacy_fallback_witness :
    exampleTxnV3.MarshalJSON = .ok (.obj [("version", .num 3),
      ("data", jsonLegacyTransactionVersion exampleTxnV3)]) ∧
    jsonObjKeys (jsonLegacyTransactionVersion exampleTxnV3) =
      ["coininputs", "coinoutputs", "minerfees", "arbitrarydata"] := by
  have h := marshalJSON_legacy_fallback exampleTxnV3 rfl
  exact ⟨h.1, by rw [h.2]; rfl⟩

/-- Claim C1: Transaction.ID is computed by two version-selected rules.  For
version 0 the ID is the hash of the six core fields in declaration order —
the hash input is exactly their flat encodings concatenated, with no version
byte in it; for any other version the ID is the hash of the transaction's
full canonical binary encoding, the MarshalSia output (which starts with the
version byte), with no field-by-field composition. -/
theorem transactionID_version_rules (H : List Nat → List Nat)
    (t : Transaction) :
    (t.version = 0 → t.ID H =
      H (encListOf encCoinInput t.coinInputs ++
         encListOf encCoinOutput t.coinOutputs ++
         encListOf encBlockStakeInput t.blockStakeInputs ++
         encListOf encBlockStakeOutput t.blockStakeOutputs ++
         encListOf encByteSlice t.minerFees ++
         encByteSlice t.arbitraryData)) ∧
    (∀ bs, t.version ≠ 0 → t.MarshalSia = .ok bs → t.ID H = H bs) := by
  constructor
  · intro h0
    rw [Transaction.ID, if_pos h0]
    rfl
  · intro bs hv hok
    rw [Transaction.ID, if_neg hv, Transaction.marshalSiaBytes, hok]

/-- A version-0 transaction with one entry in most fields. -/
def exampleTxnV0 : Transaction :=
  { version := 0,
    coinInputs := [{ parentID := List.replicate 32 7, unlocker := [1, 2] }],
    coinOutputs := [{ value := [5], unlockHash := [9] }],
    blockStakeInputs := [], blockStakeOutputs := [],
    minerFees := [[3]], arbitraryData := [4],
    extension := Extension.nil }

/-- Witness for C1 (with the identity as hash function): the version-0
example hashes the six flat fields, and the version-3 example hashes its
MarshalSia output. -/
theorem transactionID_version_rules_witness :
    Transaction.ID (fun b => b) exampleTxnV0 =
      (encListOf encCoinInput exampleTxnV0.coinInputs ++
       encListOf encCoinOutput exampleTxnV0.coinOutputs ++
       encListOf encBlockStakeInput exampleTxnV0.blockStakeInputs ++
       encListOf encBlockStakeOutput exampleTxnV0.blockStakeOutputs ++
       encListOf encByteSlice exampleTxnV0.minerFees ++
       encByteSlice exampleTxnV0.arbitraryData) ∧
    Transaction.ID (fun b => b) exampleTxnV3 =
      exampleTxnV3.marshalSiaBytes := by
  constructor
  · exact (transactionID_version_rules (fun b => b) exampleTxnV0).1 rfl
  · exact (transactionID_version_rules (fun b => b) exampleTxnV3).2
      exampleTxnV3.marshalSiaBytes (by decide) rfl

/-- Injectivity of the 8-byte little-endian encoding on uint64 values. -/
theorem encUint64_inj {i j : Nat} (hi : i < 2 ^ 64) (hj : j < 2 ^ 64)
    (h : encUint64 i = encUint64 j) : i = j := by
  have h1 := decUint64_enc i hi []
  rw [h, decUint64_enc j hj []] at h1
  simp only [Option.some.injEq, Prod.mk.injEq, and_true] at h1
  exact h1.symm

/-- Claim C4: output-ID domain separation.  With a collision-free (injective)
hash, a coin-output ID and a blockstake-output ID of the same transaction and
index always differ — their hash inputs start with the distinct specifier
tags — and coin-output IDs of distinct uint64 indices always differ — the
index is the final component of the hash input. -/
theorem outputID_domain_separation (H : List Nat → List Nat)
    (hH : Function.Injective H) (t : Transaction) (i j : Nat)
    (hi : i < 2 ^ 64) (hj : j < 2 ^ 64) :
    t.CoinOutputID H i ≠ t.BlockStakeOutputID H i ∧
    (i ≠ j → t.CoinOutputID H i ≠ t.CoinOutputID H j) := by
  constructor
  · intro heq
    rw [Transaction.CoinOutputID, Transaction.BlockStakeOutputID] at heq
    by_cases h0 : t.version = 0
    · rw [if_pos h0, if_pos h0] at heq
      have h2 := hH heq
      rw [SpecifierCoinOutput, SpecifierBlockStakeOutput] at h2
      simp at h2
    · rw [if_neg h0, if_neg h0] at heq
      have h2 := hH heq
      rw [SpecifierCoinOutput, SpecifierBlockStakeOutput] at h2
      simp at h2
  · intro hij heq
    rw [Transaction.CoinOutputID, Transaction.CoinOutputID] at heq
    by_cases h0 : t.version = 0
    · rw [if_pos h0, if_pos h0] at heq
      exact hij (encUint64_inj hi hj (List.append_cancel_left (hH heq)))
    · rw [if_neg h0, if_neg h0] at heq
      exact hij (encUint64_inj hi hj (List.append_cancel_left (hH heq)))

/-- Witness for C4, with the identity hash at the version-0 example
transaction and indices 0 and 1. -/
theorem outputID_domain_separation_witness :
    Transaction.CoinOutputID (fun b => b) exampleTxnV0 0 ≠
      Transaction.BlockStakeOutputID (fun b => b) exampleTxnV0 0 ∧
    Transaction.CoinOutputID (fun b => b) exampleTxnV0 0 ≠
      Transaction.CoinOutputID (fun b => b) exampleTxnV0 1 := by
  have h := outputID_domain_separation (fun b => b)
    (fun a b hab => hab) exampleTxnV0 0 1 (by norm_num) (by norm_num)
  exact ⟨h.1, h.2 (by norm_num)⟩

/-- Rebuilding a transaction from its own version, core data and extension
gives it back. -/
theorem Transaction.withData_coreData (t : Transaction) :
    Transaction.withData t.version t.coreData t.extension = t := by
  cases t; rfl

/-- Claim C2 (amended): binary round-trip.  For every transaction with a nil
extension and well-formed field values whose version is supported — version
0, or a version registered with the standard blob decoder — decoding the
MarshalSia bytes yields the transaction back, with nothing left over. -/
theorem transaction_binary_roundtrip (reg : TransactionRegistry)
    (t : Transaction) (hwf : t.wellFormed)
    (hext : t.extension = Extension.nil)
    (hver : t.version = 0 ∨ reg t.version = some registeredBlobDecoder) :
    Transaction.UnmarshalSia reg t.marshalSiaBytes = .ok (t, []) := by
  obtain ⟨hv256, hdwf, henc⟩ := hwf
  have hdec : decTransactionData (encTransactionData t.coreData) =
      some (t.coreData, []) := by
    have h := decTransactionData_enc t.coreData hdwf []
    rwa [List.append_nil] at h
  by_cases h0 : t.version = 0
  · have hms : t.MarshalSia = .ok (0 :: encTransactionData t.coreData) := by
      rw [Transaction.MarshalSia, hext, h0]
      rfl
    have hb : t.marshalSiaBytes = 0 :: encTransactionData t.coreData := by
      rw [Transaction.marshalSiaBytes, hms]
    rw [hb, Transaction.UnmarshalSia]
    simp only [eq_self_iff_true, if_true, hdec]
    rw [← hext, show (0 : Nat) = t.version from h0.symm,
      Transaction.withData_coreData]
  · have hreg : reg t.version = some registeredBlobDecoder := by
      rcases hver with hver | hver
      · exact absurd hver h0
      · exact hver
    have hvmod : t.version % 256 = t.version := Nat.mod_eq_of_lt hv256
    have hms : t.MarshalSia = .ok (t.version ::
        encByteSlice (encTransactionData t.coreData)) := by
      rw [Transaction.MarshalSia, hext, if_neg h0, encVersion, hvmod]
      rfl
    have hb : t.marshalSiaBytes = t.version ::
        encByteSlice (encTransactionData t.coreData) := by
      rw [Transaction.marshalSiaBytes, hms]
    have hdecb : decByteSlice (encByteSlice (encTransactionData t.coreData)) =
        some (encTransactionData t.coreData, []) := by
      have h := decByteSlice_enc _ henc []
      rwa [List.append_nil] at h
    rw [hb, Transaction.UnmarshalSia]
    simp only [if_neg h0, hdecb, hreg, Option.getD_some,
      registeredBlobDecoder, hdec]
    rw [← hext, Transaction.withData_coreData]

/-- A version-0 transaction with empty fields whose extension carries a
validator (but no encoder). -/
def roundtripCexTxn : Transaction :=
  { version := 0, coinInputs := [], coinOutputs := [], blockStakeInputs := [],
    blockStakeOutputs := [], minerFees := [], arbitraryData := [],
    extension := { dataEncoder := none, validator := some recordingValidator } }

/-- Counterexample to claim C2 as stated: quantifying over every transaction
with a supported version and valid field values includes ones whose
extension is a non-encoder capability object; decoding writes back a nil
extension, so decode(encode(t)) differs from t for this version-0
transaction carrying a validator-only extension. -/
theorem transaction_binary_roundtrip_cex :
    Transaction.UnmarshalSia emptyRegistry roundtripCexTxn.marshalSiaBytes ≠
      .ok (roundtripCexTxn, []) := by
  have h1 : Transaction.UnmarshalSia emptyRegistry
      roundtripCexTxn.marshalSiaBytes =
      .ok (Transaction.withData 0 roundtripCexTxn.coreData Extension.nil,
        []) := rfl
  rw [h1]
  intro hc
  simp [Transaction.withData, Extension.nil, roundtripCexTxn,
    Transaction.coreData] at hc

/-- The registry of the examples: version 1 carries the blob decoder. -/
def exampleRegistry : TransactionRegistry :=
  fun v => if v = 1 then some registeredBlobDecoder else none

/-- A version-1 transaction with a nil extension and some content. -/
def exampleTxnV1 : Transaction :=
  { version := 1, coinInputs := [], coinOutputs := [],
    blockStakeInputs := [{ parentID := List.replicate 32 2, unlocker := [6] }],
    blockStakeOutputs := [{ value := [], unlockHash := [1] }],
    minerFees := [], arbitraryData := [8, 8],
    extension := Extension.nil }

/-- Witness for C2: the concrete version-0 and registered version-1 example
transactions round-trip. -/
theorem transaction_binary_roundtrip_witness :
    Transaction.UnmarshalSia exampleRegistry exampleTxnV0.marshalSiaBytes =
      .ok (exampleTxnV0, []) ∧
    Transaction.UnmarshalSia exampleRegistry exampleTxnV1.marshalSiaBytes =
      .ok (exampleTxnV1, []) := by
  constructor
  · exact transaction_binary_roundtrip exampleRegistry exampleTxnV0
      (by decide) rfl (Or.inl rfl)
  · exact transaction_binary_roundtrip exampleRegistry exampleTxnV1
      (by decide) rfl (Or.inr rfl)

/-- Claim C3 (amended): unknown-version rejection.  For a version byte that
is neither zero nor registered, binary decoding never succeeds (and never
falls back to the version-0 field layout); it reports exactly
ErrInvalidTransactionVersion whenever the remainder parses as the
length-prefixed raw-data field (a truncated remainder is a malformed-input
error instead); a JSON envelope carrying such a version always reports
ErrInvalidTransactionVersion; and IsStandardTransaction reports
ErrInvalidTransactionVersion for every transaction with such a version. -/
theorem unknownVersion_rejection (reg : TransactionRegistry) (v : Nat)
    (hv : v ≠ 0) (hreg : reg v = none) :
    (∀ b t rem, Transaction.UnmarshalSia reg (v :: b) ≠ .ok (t, rem)) ∧
    (∀ b raw rest, decByteSlice b = some (raw, rest) →
      Transaction.UnmarshalSia reg (v :: b) =
        .error errInvalidTransactionVersion) ∧
    (∀ fields, jsonLookup fields "version" = some (.num v) →
      Transaction.UnmarshalJSON reg (.obj fields) =
        .error errInvalidTransactionVersion) ∧
    (∀ t : Transaction, t.version = v →
      t.IsStandardTransaction reg = some errInvalidTransactionVersion) := by
  refine ⟨?_, ?_, ?_, ?_⟩
  · intro b t rem hc
    rw [Transaction.UnmarshalSia] at hc
    simp only [if_neg hv] at hc
    cases hdec : decByteSlice b with
    | none =>
      simp only [hdec] at hc
      exact Except.noConfusion hc
    | some pr =>
      obtain ⟨raw, rest⟩ := pr
      simp only [hdec, hreg, Option.getD_none, unknownTransactionDecoder]
        at hc
      exact Except.noConfusion hc
  · intro b raw rest hdec
    rw [Transaction.UnmarshalSia]
    simp only [if_neg hv, hdec, hreg, Option.getD_none,
      unknownTransactionDecoder]
  · intro fields hlook
    rw [Transaction.UnmarshalJSON]
    simp only [hlook, if_neg hv, hreg, Option.getD_none,
      unknownTransactionDecoder]
  · intro t ht
    rw [Transaction.IsStandardTransaction, ht, if_neg hv, hreg]
    rfl

/-- Counterexample to claim C3 as stated: the one-byte input consisting of
only the unregistered version byte 5 makes UnmarshalSia fail with the
malformed-input read error, not with the invalid-transaction-version error
the claim requires of every such input. -/
theorem unknownVersion_rejection_cex :
    Transaction.UnmarshalSia emptyRegistry [5] = .error errUnexpectedEOF ∧
    errUnexpectedEOF ≠ errInvalidTransactionVersion := by
  exact ⟨rfl, by decide⟩

/-- Witness for C3 at version byte 5 and the empty registry: a well-formed
remainder yields the invalid-version error on the binary path, the JSON
envelope path yields it, and so does the standardness check. -/
theorem unknownVersion_rejection_witness :
    Transaction.UnmarshalSia emptyRegistry (5 :: encByteSlice []) =
      .error errInvalidTransactionVersion ∧
    Transaction.UnmarshalJSON emptyRegistry
        (.obj [("version", .num 5), ("data", .null)]) =
      .error errInvalidTransactionVersion ∧
    Transaction.IsStandardTransaction emptyRegistry
        (Transaction.withData 5 roundtripCexTxn.coreData Extension.nil) =
      some errInvalidTransactionVersion := by
  have h := unknownVersion_rejection emptyRegistry 5 (by decide) rfl
  exact ⟨h.2.1 (encByteSlice []) [] [] rfl,
    h.2.2.1 [("version", .num 5), ("data", .null)] rfl,
    h.2.2.2 _ rfl⟩
